import Mathlib

/-!
Verification development for the Polymarket trade-tracker core
(`processing.py`, `position_tracker.py`, `question_analyzer.py`).

Modelling conventions:
* Python `Decimal` / `float` arithmetic is modelled exactly over `ℚ`
  (the code only scales by fixed powers of ten and divides; on the inputs of
  interest `Decimal` arithmetic is exact).  Because the library's `Rat.mul`,
  `Rat.add` and `Rat.div` are `@[irreducible]`, the model computes with the
  kernel-reducible wrappers `ratMul`/`ratAdd`/`ratDiv` below, which are proved
  equal to the standard operations (`ratMul_eq`, `ratAdd_eq`, `ratDiv_eq`).
* String lowercasing/stripping are modelled over the ASCII range the code's
  inputs use (`strLower`, `strStrip`, `strStartsWith`), since the library's
  byte-position-based `String` functions do not reduce in the kernel.
* A Bitquery argument `Value` container ({bigInteger | integer | string |
  address | hex | bool} with one populated variant, recursively unwrapped by
  `_resolve_value`) is modelled by its resolved primitive `Prim`: an integer,
  a string, a byte-string, or nothing.
* `datetime` values are modelled as integers (comparison and `max` are all
  the code uses); an event's `Block.Time` ISO string is modelled as an
  already-parsed `Option Int`, and `datetime.now()` is an explicit `now`
  parameter.
* Python exceptions inside `parse_order_filled_event` are caught by its
  `except` clause, so the parser is modelled as a total function returning
  `Option Position`.
-/

/-- Rational division `a / b` (with `a / 0 = 0`), written via `Rat.divInt` so
that the kernel can evaluate it; `ratDiv_eq` proves it equal to `a / b`. -/
def ratDiv (a b : ℚ) : ℚ := Rat.divInt (a.num * b.den) (a.den * b.num)

/-- Rational multiplication via `Rat.divInt`; equal to `a * b` (`ratMul_eq`). -/
def ratMul (a b : ℚ) : ℚ := Rat.divInt (a.num * b.num) (a.den * b.den)

/-- Rational addition via `Rat.divInt`; equal to `a + b` (`ratAdd_eq`). -/
def ratAdd (a b : ℚ) : ℚ := Rat.divInt (a.num * b.den + b.num * a.den) (a.den * b.den)

/-- ASCII lowercasing of one character, as Python's `str.lower` acts on the
ASCII range. -/
def lowerChar (c : Char) : Char :=
  if 'A' ≤ c ∧ c ≤ 'Z' then Char.ofNat (c.toNat + 32) else c

/-- Python's `str.lower()` (ASCII range). -/
def strLower (s : String) : String := String.mk (s.toList.map lowerChar)

/-- Python's ASCII whitespace (`str.strip` / `str.split` default set). -/
def isPySpace (c : Char) : Bool :=
  c = ' ' ∨ c = '\t' ∨ c = '\n' ∨ c = '\r' ∨ c = Char.ofNat 11 ∨ c = Char.ofNat 12

/-- Python's `str.strip()` (ASCII whitespace). -/
def strStrip (s : String) : String :=
  String.mk (((s.toList.dropWhile isPySpace).reverse.dropWhile isPySpace).reverse)

/-- Python's `str.startswith`. -/
def strStartsWith (s pfx : String) : Bool :=
  List.isPrefixOf pfx.toList s.toList

/-- A resolved Bitquery argument value, as produced by `_resolve_value`:
an integer (`bigInteger`/`integer` variants), a string (`string`/`address`/
`hex` variants), a byte-string, or an absent value. -/
inductive Prim where
  | pInt (n : Int)
  | pStr (s : String)
  | pBytes (bs : List Nat)
  | pNone
deriving DecidableEq, Repr

/-- Digit run to a natural number, e.g. `['4','2'] ↦ 42`. -/
def digitsVal (cs : List Char) : Nat :=
  cs.foldl (fun a c => a * 10 + (c.toNat - 48)) 0

/-- Value of one hexadecimal digit, if the character is one. -/
def hexDigitVal (c : Char) : Option Nat :=
  if '0' ≤ c ∧ c ≤ '9' then some (c.toNat - 48)
  else if 'a' ≤ c ∧ c ≤ 'f' then some (c.toNat - 87)
  else if 'A' ≤ c ∧ c ≤ 'F' then some (c.toNat - 55)
  else none

/-- `int(s, 16)` on the digits after a `0x` prefix: at least one hex digit,
all characters hex digits (underscore grouping is not modelled). -/
def hexNatOfChars (cs : List Char) : Option Nat :=
  if cs = [] then none
  else cs.foldl
    (fun acc c =>
      match acc, hexDigitVal c with
      | some a, some v => some (a * 16 + v)
      | _, _ => none)
    (some 0)

/-- The exponent part of a `Decimal` literal (after `e`/`E`):
an optional sign followed by at least one digit. -/
def parseExpPart (cs : List Char) : Option Int :=
  match cs with
  | [] => none
  | c :: rest =>
    let p : Int × List Char :=
      if c = '+' then (1, rest) else if c = '-' then (-1, rest) else (1, c :: rest)
    if p.2 ≠ [] ∧ p.2.all Char.isDigit then some (p.1 * (digitsVal p.2 : Int)) else none

/-- `Decimal(s)` on an already-stripped, non-empty string: optional sign,
digits with an optional decimal point, optional exponent.  Returns `none` on
anything else (the special values `Infinity`/`NaN`, which have no rational
counterpart, are not modelled). -/
def parseDecimalString (s : String) : Option ℚ :=
  let cs := s.toList
  match cs with
  | [] => none
  | _ =>
    let sb : Int × List Char :=
      match cs with
      | '+' :: r => (1, r)
      | '-' :: r => (-1, r)
      | r => (1, r)
    let body := sb.2
    let mantExp : List Char × Option (List Char) :=
      match body.findIdx? (fun c => c = 'e' ∨ c = 'E') with
      | none => (body, none)
      | some i => (body.take i, some (body.drop (i + 1)))
    let mant := mantExp.1
    let expVal : Option Int :=
      match mantExp.2 with
      | none => some 0
      | some ecs => parseExpPart ecs
    match expVal with
    | none => none
    | some e =>
      let ipfp : List Char × List Char :=
        match mant.findIdx? (· = '.') with
        | none => (mant, [])
        | some i => (mant.take i, mant.drop (i + 1))
      let ip := ipfp.1
      let fp := ipfp.2
      if (ip ++ fp) = [] then none
      else if fp.any (· = '.') then none
      else if ¬ (ip ++ fp).all Char.isDigit then none
      else
        let n : Int := sb.1 * (digitsVal (ip ++ fp) : Int)
        if 0 ≤ e then some (mkRat (n * (10 : Int) ^ e.toNat) ((10 : Nat) ^ fp.length))
        else some (mkRat n ((10 : Nat) ^ fp.length * (10 : Nat) ^ (-e).toNat))

/-- `_to_decimal` from `processing.py`, on a resolved primitive: integers pass
through exactly; strings are stripped, `0x`-prefixed strings parsed as base-16
integers, other strings parsed as decimal literals; anything else is `none`. -/
def toDecimal (p : Prim) : Option ℚ :=
  match p with
  | .pInt n => some (n : ℚ)
  | .pStr s =>
    let cleaned := strStrip s
    if cleaned = "" then none
    else if strStartsWith cleaned "0x" then
      (hexNatOfChars (cleaned.toList.drop 2)).map (fun n => (n : ℚ))
    else parseDecimalString cleaned
  | .pBytes _ => none
  | .pNone => none

/-- `extract_value` from `processing.py`: resolve the container (already done
by `Prim`) and convert to a decimal. -/
def extract_value (p : Prim) : Option ℚ := toDecimal p

/-- Lowercase hex encoding of a byte-string, as Python's `bytes.hex()`. -/
def bytesHex (bs : List Nat) : String :=
  String.mk (bs.foldr
    (fun b acc =>
      (Nat.digitChar (b / 16 % 16)) :: (Nat.digitChar (b % 16)) :: acc) [])

/-- `extract_string_value` from `processing.py`: `none` stays absent,
byte-strings become their hex encoding, everything else is `str(...)`-ified. -/
def extract_string_value (p : Prim) : Option String :=
  match p with
  | .pNone => none
  | .pBytes bs => some (bytesHex bs)
  | .pInt n => some (toString n)
  | .pStr s => some s

/-- `process_trade_amounts` from `processing.py`: absent inputs count as zero,
both legs are scaled down by `10^6`, and the price is
`usdc_normalized / tokens_normalized`, with a zero token amount yielding
price `0` instead of an error. -/
def process_trade_amounts (usdc_paid tokens_amount : Option ℚ) : ℚ × ℚ × ℚ :=
  let usdc_value : ℚ := usdc_paid.getD 0
  let token_value : ℚ := tokens_amount.getD 0
  let usdc_normalized : ℚ := if usdc_value ≠ 0 then ratDiv usdc_value 1000000 else 0
  let tokens_normalized : ℚ := if token_value ≠ 0 then ratDiv token_value 1000000 else 0
  let price : ℚ := if tokens_normalized ≠ 0 then ratDiv usdc_normalized tokens_normalized else 0
  (usdc_normalized, tokens_normalized, price)

/-- A raw `OrderFilled` event as consumed by `parse_order_filled_event`:
the named argument list (with resolved values) plus the transaction and
block fields the parser reads, with Python's `dict.get` defaults already
applied (`From`/`Hash` default `""`, `Number` default `0`); `blockTime` is
the parsed `Block.Time`, `none` when the field is absent or empty. -/
structure BqEvent where
  arguments : List (String × Prim)
  txFrom : String := ""
  txHash : String := ""
  blockTime : Option Int := none
  blockNumber : Int := 0
deriving DecidableEq, Repr

/-- `{arg["Name"]: arg["Value"] for arg in args}` — dict lookup where the
last occurrence of a repeated name wins. -/
def argLookup (args : List (String × Prim)) (name : String) : Option Prim :=
  args.foldl (fun acc nv => if nv.1 = name then some nv.2 else acc) none

/-- A trading position, from `position_tracker.py`. -/
structure Position where
  asset_id : String
  trader_address : String
  maker_address : String
  taker_address : String
  amount : ℚ
  price : ℚ
  direction : String
  timestamp : Int
  tx_hash : String
  block_number : Int
deriving DecidableEq, Repr

/-- Python truthiness of an optional string: `None` and `""` are falsy. -/
def pyTruthy (a : Option String) : Bool :=
  match a with
  | none => false
  | some s => s ≠ ""

/-- Python's `a or b` on optional strings. -/
def pyOrStr (a b : Option String) : Option String :=
  if pyTruthy a then a else b

/-- Resolution of `makerAssetId` / `takerAssetId`: the argument must be
present and `extract_string_value` must yield a truthy (non-empty) string. -/
def assetIdArg (ev : BqEvent) (name : String) : Option String :=
  match argLookup ev.arguments name with
  | none => none
  | some v =>
    match extract_string_value v with
    | none => none
    | some s => if s ≠ "" then some s else none

/-- `maker_is_usdc` / `taker_is_usdc`: the resolved id is in
`["0", 0, "0x0"]` or, when truthy, strips to `"0"`. -/
def isUsdcAssetId (a : Option String) : Bool :=
  match a with
  | none => false
  | some s => (s = "0" ∨ s = "0x0") ∨ (s ≠ "" ∧ strStrip s = "0")

/-- Which side supplied the stablecoin (`usdc_given` in the source). -/
inductive UsdcSide where
  | maker
  | taker
deriving DecidableEq, Repr

/-- The `usdc_given` role chosen by `parse_order_filled_event`: maker if the
maker leg is USDC, else taker if the taker leg is USDC, else the default
fallback assumption that the taker gives USDC. -/
def usdcGivenOf (ev : BqEvent) : UsdcSide :=
  if isUsdcAssetId (assetIdArg ev "makerAssetId") then .maker
  else if isUsdcAssetId (assetIdArg ev "takerAssetId") then .taker
  else .taker

/-- The `outcome_asset_id` chosen by `parse_order_filled_event`: the other
leg when one leg is USDC (the taker leg when both are USDC, since the maker
branch is tested first), else `maker_asset_id or taker_asset_id`. -/
def outcomeAssetIdOf (ev : BqEvent) : Option String :=
  let makerAssetId := assetIdArg ev "makerAssetId"
  let takerAssetId := assetIdArg ev "takerAssetId"
  if isUsdcAssetId makerAssetId then takerAssetId
  else if isUsdcAssetId takerAssetId then makerAssetId
  else pyOrStr makerAssetId takerAssetId

/-- Candidate argument names for the maker-side filled amount. -/
def makerAmountKeys : List String :=
  ["makerAmountFilled", "makerAmount", "makerFillAmount", "makerFilledAmount"]

/-- Candidate argument names for the taker-side filled amount. -/
def takerAmountKeys : List String :=
  ["takerAmountFilled", "takerAmount", "takerFillAmount", "takerFilledAmount",
   "fillAmount", "amount"]

/-- Probe an ordered list of candidate argument names; the first name present
whose value resolves to a number wins. -/
def firstAmountValue (ev : BqEvent) : List String → Option ℚ
  | [] => none
  | key :: rest =>
    match argLookup ev.arguments key with
    | none => firstAmountValue ev rest
    | some v =>
      match extract_value v with
      | some d => some d
      | none => firstAmountValue ev rest

/-- Resolution of the `maker` / `taker` address arguments: absent stays
absent, a truthy string is lowercased, an empty string stays empty. -/
def addressArg (ev : BqEvent) (name : String) : Option String :=
  match argLookup ev.arguments name with
  | none => none
  | some v =>
    match extract_string_value v with
    | none => none
    | some s => some (if s ≠ "" then strLower s else s)

/-- The final `trader_address` value stored on the `Position`: the buyer-side
address `or` the other side's address; when both are falsy, the transaction's
`From` address lowercased; an overall falsy result is stored as `""`. -/
def traderAddressOf (ev : BqEvent) : String :=
  let maker := addressArg ev "maker"
  let taker := addressArg ev "taker"
  let trader0 :=
    if usdcGivenOf ev = .maker then pyOrStr taker maker else pyOrStr maker taker
  if pyTruthy trader0 then trader0.getD ""
  else if ev.txFrom ≠ "" then strLower ev.txFrom
  else ""

/-- `parse_order_filled_event` from `position_tracker.py`.  Any Python
exception is caught and turned into `None` by the source's `except` clause,
which the totality of this function models.  Returns `none` when no amount
resolved on either side or when no outcome asset id was found. -/
def parse_order_filled_event (now : Int) (ev : BqEvent) : Option Position :=
  let usdcGiven := usdcGivenOf ev
  let maker_amount := firstAmountValue ev makerAmountKeys
  let taker_amount := firstAmountValue ev takerAmountKeys
  let usdc_paid := if usdcGiven = .maker then maker_amount else taker_amount
  let tokens_amount := if usdcGiven = .maker then taker_amount else maker_amount
  let processed := process_trade_amounts usdc_paid tokens_amount
  let amount := processed.2.1
  let price := processed.2.2
  match usdc_paid, tokens_amount with
  | none, none => none
  | _, _ =>
    match outcomeAssetIdOf ev with
    | none => none
    | some outcome_asset_id =>
      some
        { asset_id := outcome_asset_id
          trader_address := traderAddressOf ev
          maker_address := (addressArg ev "maker").getD ""
          taker_address := (addressArg ev "taker").getD ""
          amount := amount
          price := price
          direction := "YES"
          timestamp := ev.blockTime.getD now
          tx_hash := ev.txHash
          block_number := ev.blockNumber }

/-- A price level of the reconstructed order book (`get_orderbook`): total
amount, trade count, and the most recent contributing trade's time. -/
structure BookLevel where
  amount : ℚ
  count : Nat
  last_trade_time : Int
deriving DecidableEq, Repr

/-- Accumulate one trade into the price-keyed level map (modelled as an
association list with unique keys): a new price opens a level initialised to
zero and immediately accumulated; an existing level adds the amount, bumps the
count, and keeps the later trade time. -/
def addToLevels (levels : List (ℚ × BookLevel)) (price amount : ℚ) (t : Int) :
    List (ℚ × BookLevel) :=
  match levels with
  | [] => [(price, { amount := amount, count := 1, last_trade_time := t })]
  | (p, l) :: rest =>
    if p = price then
      (p, { amount := ratAdd l.amount amount,
            count := l.count + 1,
            last_trade_time := if l.last_trade_time < t then t else l.last_trade_time }) :: rest
    else (p, l) :: addToLevels rest price amount t

/-- The seller determination of `get_orderbook`: only when both maker and
taker addresses are non-empty; the party that is not the buyer
(case-insensitively), the maker when no buyer is known. -/
def sellerOf (pos : Position) : Option String :=
  if pos.maker_address ≠ "" ∧ pos.taker_address ≠ "" then
    if pos.trader_address ≠ "" then
      let buyer_lower := strLower pos.trader_address
      let maker_lower := strLower pos.maker_address
      let taker_lower := strLower pos.taker_address
      if buyer_lower = maker_lower then some pos.taker_address
      else if buyer_lower = taker_lower then some pos.maker_address
      else if maker_lower ≠ buyer_lower then some pos.maker_address
      else some pos.taker_address
    else some pos.maker_address
  else none

/-- The per-position loop body of `get_orderbook`: the buyer (trader address)
contributes to a bid level, the seller to an ask level; falsy buyer/seller
contribute nothing. -/
def stepBook (st : List (ℚ × BookLevel) × List (ℚ × BookLevel)) (pos : Position) :
    List (ℚ × BookLevel) × List (ℚ × BookLevel) :=
  let bids :=
    if pos.trader_address ≠ "" then addToLevels st.1 pos.price pos.amount pos.timestamp
    else st.1
  let asks :=
    if pyTruthy (sellerOf pos) then addToLevels st.2 pos.price pos.amount pos.timestamp
    else st.2
  (bids, asks)

/-- `positions.sort(key=lambda p: p.timestamp)` — stable ascending sort. -/
def sortPositionsByTime (ps : List Position) : List Position :=
  List.insertionSort (fun p q => p.timestamp ≤ q.timestamp) ps

/-- Replay positions chronologically, building bid and ask level maps. -/
def buildBookLevels (ps : List Position) :
    List (ℚ × BookLevel) × List (ℚ × BookLevel) :=
  (sortPositionsByTime ps).foldl stepBook ([], [])

/-- `sorted(levels.items(), reverse=True)` — by price descending. -/
def sortLevelsDesc (ls : List (ℚ × BookLevel)) : List (ℚ × BookLevel) :=
  List.insertionSort (fun a b => b.1 ≤ a.1) ls

/-- `sorted(levels.items())` — by price ascending. -/
def sortLevelsAsc (ls : List (ℚ × BookLevel)) : List (ℚ × BookLevel) :=
  List.insertionSort (fun a b => a.1 ≤ b.1) ls

/-- The order-book snapshot returned by `get_orderbook` (the displayed lists
keep each level's full record; the source drops `last_trade_time` from the
output dictionaries but tracks it exactly as modelled here). -/
structure OrderBook where
  bids : List (ℚ × BookLevel)
  asks : List (ℚ × BookLevel)
  snapshot_time : Option Int
deriving DecidableEq, Repr

/-- The position-collection core of `get_orderbook` from
`position_tracker.py`: chronological replay into price levels, bids sorted by
price descending, asks ascending, snapshot time the maximum timestamp. -/
def get_orderbook_core (ps : List Position) : OrderBook :=
  let levels := buildBookLevels ps
  { bids := sortLevelsDesc levels.1
    asks := sortLevelsAsc levels.2
    snapshot_time := (ps.map (fun p => p.timestamp)).max? }

/-- `get_orderbook` on a batch of raw events: parse, keep positions whose
(stripped) asset id matches, and reconstruct the book. -/
def get_orderbook (now : Int) (asset_id : String) (events : List BqEvent) : OrderBook :=
  let positions :=
    (events.filterMap (parse_order_filled_event now)).filter
      (fun p => strStrip p.asset_id = strStrip asset_id)
  get_orderbook_core positions

/-- Per-trader aggregation record of `get_top_traders_and_assets`
(`unique_assets_count` is filled in at finalization, like the source). -/
structure TraderStat where
  address : String
  total_volume : ℚ
  total_trades : Nat
  unique_assets : List String
  avg_price : ℚ
  total_amount : ℚ
  unique_assets_count : Nat
deriving DecidableEq, Repr

/-- Python `set.add` on a set modelled as a duplicate-free list. -/
def listSetAdd (l : List String) (x : String) : List String :=
  if x ∈ l then l else l ++ [x]

/-- Accumulate one position into a trader's running stats. -/
def updTrader (pos : Position) (s : TraderStat) : TraderStat :=
  { s with
    total_volume := ratAdd s.total_volume (ratMul pos.amount pos.price)
    total_trades := s.total_trades + 1
    unique_assets := listSetAdd s.unique_assets pos.asset_id
    total_amount := ratAdd s.total_amount pos.amount }

/-- Dictionary upsert for `trader_stats`, keyed by lowercased address. -/
def upsertTrader (t : String) (pos : Position) : List TraderStat → List TraderStat
  | [] =>
    [updTrader pos
      { address := t, total_volume := 0, total_trades := 0, unique_assets := [],
        avg_price := 0, total_amount := 0, unique_assets_count := 0 }]
  | s :: rest =>
    if s.address = t then updTrader pos s :: rest else s :: upsertTrader t pos rest

/-- The per-position trader-aggregation step: positions with an empty
(lowercased) trader address are skipped. -/
def addTraderStat (stats : List TraderStat) (pos : Position) : List TraderStat :=
  let trader := strLower pos.trader_address
  if trader = "" then stats else upsertTrader trader pos stats

/-- The raw `trader_stats` mapping built over a batch of positions. -/
def buildTraderStats (ps : List Position) : List TraderStat :=
  ps.foldl addTraderStat []

/-- Finalization of one trader's stats: unique-asset count, display
truncation, and the volume-weighted average price with the zero-amount
guard. -/
def finalizeTraderStat (s : TraderStat) : TraderStat :=
  let s1 :=
    { s with
      unique_assets_count := s.unique_assets.length
      unique_assets := s.unique_assets.take 10 }
  if 0 < s1.total_trades then
    { s1 with
      avg_price :=
        if 0 < s1.total_amount then ratDiv s1.total_volume s1.total_amount else 0 }
  else s1

/-- The finalized per-trader stats of `get_top_traders_and_assets`. -/
def traderStats (ps : List Position) : List TraderStat :=
  (buildTraderStats ps).map finalizeTraderStat

/-- Per-asset aggregation record of `get_top_traders_and_assets`. -/
structure AssetStat where
  asset_id : String
  total_volume : ℚ
  total_trades : Nat
  unique_traders : List String
  avg_price : ℚ
  total_amount : ℚ
  unique_traders_count : Nat
deriving DecidableEq, Repr

/-- Accumulate one position into an asset's running stats. -/
def updAsset (pos : Position) (s : AssetStat) : AssetStat :=
  { s with
    total_volume := ratAdd s.total_volume (ratMul pos.amount pos.price)
    total_trades := s.total_trades + 1
    unique_traders := listSetAdd s.unique_traders (strLower pos.trader_address)
    total_amount := ratAdd s.total_amount pos.amount }

/-- Dictionary upsert for `asset_stats`, keyed by stripped asset id. -/
def upsertAsset (a : String) (pos : Position) : List AssetStat → List AssetStat
  | [] =>
    [updAsset pos
      { asset_id := a, total_volume := 0, total_trades := 0, unique_traders := [],
        avg_price := 0, total_amount := 0, unique_traders_count := 0 }]
  | s :: rest =>
    if s.asset_id = a then updAsset pos s :: rest else s :: upsertAsset a pos rest

/-- The per-position asset-aggregation step: positions with an empty
(stripped) asset id are skipped. -/
def addAssetStat (stats : List AssetStat) (pos : Position) : List AssetStat :=
  let asset_id := strStrip pos.asset_id
  if asset_id = "" then stats else upsertAsset asset_id pos stats

/-- The raw `asset_stats` mapping built over a batch of positions. -/
def buildAssetStats (ps : List Position) : List AssetStat :=
  ps.foldl addAssetStat []

/-- Finalization of one asset's stats: unique-trader count and the
volume-weighted average price with the zero-amount guard. -/
def finalizeAssetStat (s : AssetStat) : AssetStat :=
  let s1 := { s with unique_traders_count := s.unique_traders.length }
  if 0 < s1.total_trades then
    { s1 with
      avg_price :=
        if 0 < s1.total_amount then ratDiv s1.total_volume s1.total_amount else 0 }
  else s1

/-- The finalized per-asset stats of `get_top_traders_and_assets`. -/
def assetStats (ps : List Position) : List AssetStat :=
  (buildAssetStats ps).map finalizeAssetStat

/-- The dictionary returned by `get_top_traders_and_assets`. -/
structure TopResult where
  traders : List TraderStat
  assets : List AssetStat
  total_trades : Nat
  total_parsed : Nat
deriving DecidableEq, Repr

/-- `get_top_traders_and_assets` from `position_tracker.py`: parse a batch,
aggregate per trader and per asset, sort by total volume descending, truncate
to the requested counts. -/
def get_top_traders_and_assets (now : Int) (events : List BqEvent)
    (top_traders_count top_assets_count : Nat) : TopResult :=
  let positions := events.filterMap (parse_order_filled_event now)
  { traders :=
      (List.insertionSort (fun a b : TraderStat => b.total_volume ≤ a.total_volume)
        (traderStats positions)).take top_traders_count
    assets :=
      (List.insertionSort (fun a b : AssetStat => b.total_volume ≤ a.total_volume)
        (assetStats positions)).take top_assets_count
    total_trades := events.length
    total_parsed := positions.length }

/-- ASCII alphanumeric, the leading-character class of the tokenizer's
pattern `[A-Za-z0-9][A-Za-z0-9']+`. -/
def isAlnumAscii (c : Char) : Bool :=
  ('A' ≤ c ∧ c ≤ 'Z') ∨ ('a' ≤ c ∧ c ≤ 'z') ∨ ('0' ≤ c ∧ c ≤ '9')

/-- Continuation-character class of the tokenizer: alphanumeric or
apostrophe. -/
def isTokChar (c : Char) : Bool :=
  isAlnumAscii c ∨ c = Char.ofNat 39

/-- Scanner for `findall` of `[A-Za-z0-9][A-Za-z0-9']+`: a match needs a
leading alphanumeric followed by at least one token character, is greedy, and
non-matching positions are skipped one character at a time. -/
def tokenizeAux : Option (Char × List Char) → List Char → List String
  | none, [] => []
  | none, c :: rest =>
    if isAlnumAscii c then tokenizeAux (some (c, [])) rest else tokenizeAux none rest
  | some st, [] =>
    if st.2 ≠ [] then [String.mk (st.1 :: st.2.reverse)] else []
  | some st, d :: rest =>
    if isTokChar d then tokenizeAux (some (st.1, d :: st.2)) rest
    else if st.2 = [] then tokenizeAux none rest
    else String.mk (st.1 :: st.2.reverse) :: tokenizeAux none rest

/-- `_tokenize` from `question_analyzer.py`: word-pattern matches over the
lowercased text. -/
def tokenize (text : String) : List String :=
  tokenizeAux none (strLower text).toList

/-- Index of the first occurrence of a (non-empty) literal pattern. -/
def findPatIdx (pat : List Char) : List Char → Option Nat
  | [] => if pat = [] then some 0 else none
  | c :: rest =>
    if List.isPrefixOf pat (c :: rest) then some 0
    else (findPatIdx pat rest).map (· + 1)

/-- The title pattern's capture terminator `,\s*description:` (or end of
text), tested at a position of the lowercased text. -/
def titleTermAt (cs : List Char) : Bool :=
  match cs with
  | ',' :: rest => List.isPrefixOf "description:".toList (rest.dropWhile isPySpace)
  | _ => false

/-- The description pattern's capture terminators
`market_id:|res_data:|initializer:|updates made|https?://` (or end of text),
tested at a position of the lowercased text. -/
def descTermAt (cs : List Char) : Bool :=
  List.isPrefixOf "market_id:".toList cs ∨
  List.isPrefixOf "res_data:".toList cs ∨
  List.isPrefixOf "initializer:".toList cs ∨
  List.isPrefixOf "updates made".toList cs ∨
  List.isPrefixOf "https://".toList cs ∨
  List.isPrefixOf "http://".toList cs

/-- Length of the non-greedy capture: distance to the first position where
the terminator matches, or to the end of text. -/
def capEndIdx (termAt : List Char → Bool) : List Char → Nat
  | [] => 0
  | c :: rest => if termAt (c :: rest) then 0 else capEndIdx termAt rest + 1

/-- `str.split()` on ASCII whitespace runs (first argument: current word,
reversed). -/
def splitWsAux : List Char → List Char → List (List Char)
  | acc, [] => if acc = [] then [] else [acc.reverse]
  | acc, c :: rest =>
    if isPySpace c then
      if acc = [] then splitWsAux [] rest else acc.reverse :: splitWsAux [] rest
    else splitWsAux (c :: acc) rest

/-- `" ".join(s.split())` — collapse whitespace runs to single spaces. -/
def wsNormalizeChars (cs : List Char) : List Char :=
  List.intercalate [' '] (splitWsAux [] cs)

/-- `_extract_field_value(text, field)`: find the first (case-insensitive)
occurrence of `field ++ ":"`, skip whitespace, capture non-greedily up to the
field's terminator or end of text, and whitespace-normalize the capture. -/
def extractFieldValue (text : String) (field : List Char) (fieldLen : Nat)
    (termAt : List Char → Bool) : String :=
  let orig := text.toList
  let low := (strLower text).toList
  match findPatIdx field low with
  | none => ""
  | some i =>
    let afterIdx := i + fieldLen
    let wsCount := ((low.drop afterIdx).takeWhile isPySpace).length
    let start := afterIdx + wsCount
    let len := capEndIdx termAt (low.drop start)
    String.mk (wsNormalizeChars ((orig.drop start).take len))

/-- The `title` field of the decoded ancillary text. -/
def extractTitle (text : String) : String :=
  extractFieldValue text "title:".toList 6 titleTermAt

/-- The `description` field of the decoded ancillary text. -/
def extractDescription (text : String) : String :=
  extractFieldValue text "description:".toList 12 descTermAt

/-- `_extract_core_text`: the non-empty title/description parts joined by a
space, or the whitespace-normalized whole text when neither is present. -/
def extract_core_text (text : String) : String :=
  let t := extractTitle text
  let d := extractDescription text
  if t ≠ "" ∨ d ≠ "" then
    String.mk (List.intercalate [' ']
      (((if t ≠ "" then [t] else []) ++ (if d ≠ "" then [d] else [])).map String.toList))
  else String.mk (wsNormalizeChars text.toList)

/-- `_TOPIC_KEYWORDS` from `question_analyzer.py`, in dictionary order. -/
def topicKeywordTable : List (String × List String) :=
  [("Politics",
    ["election", "president", "prime", "minister", "parliament", "vote",
     "senate", "congress", "policy", "government"]),
   ("Crypto",
    ["bitcoin", "btc", "ethereum", "eth", "polygon", "matic", "sol", "solana",
     "xrp", "usdt", "token", "crypto", "defi", "blockchain", "stablecoin",
     "sec", "binance"]),
   ("Finance",
    ["stock", "stocks", "price", "interest", "rate", "rates", "inflation",
     "gdp", "revenue", "profit", "yield", "bond", "bonds", "treasury", "fed"]),
   ("Sports",
    ["game", "match", "league", "season", "championship", "tournament",
     "score", "team", "player", "coach", "nfl", "nba", "mlb", "nhl", "cbb",
     "soccer", "football", "basketball", "ufc", "mls"]),
   ("Geopolitics",
    ["war", "conflict", "russia", "ukraine", "china", "sanction", "military",
     "peace", "nato", "border"]),
   ("Technology",
    ["artificial", "intelligence", "software", "hardware", "chip",
     "semiconductor", "robotics", "cyber", "cloud", "compute", "machine",
     "learning"]),
   ("Weather",
    ["temperature", "rain", "snow", "storm", "hurricane", "weather",
     "climate", "heat", "cold", "precipitation"]),
   ("Health",
    ["covid", "virus", "vaccine", "disease", "hospital", "cases", "death",
     "health", "cdc", "who"])]

/-- Keyword-presence score of one topic against a token set. -/
def topicScore (tokens : List String) (keywords : List String) : Nat :=
  keywords.countP (fun k => k ∈ tokens)

/-- Score of a topic looked up by name (0 for names outside the table). -/
def topicScoreByName (tokens : List String) (topic : String) : Nat :=
  match topicKeywordTable.lookup topic with
  | none => 0
  | some keywords => topicScore tokens keywords

/-- The `(topic, score)` pairs with a nonzero score, in table order. -/
def scoredTopicsOf (tokens : List String) : List (String × Nat) :=
  topicKeywordTable.filterMap (fun tk =>
    let score := topicScore tokens tk.2
    if score ≠ 0 then some (tk.1, score) else none)

/-- `_detect_topics` from `question_analyzer.py`: token-set presence scores
per topic, stable-sorted descending by score, top 3; the sentinel
`["General"]` when no topic scores. -/
def detect_topics (text : String) : List String :=
  let core_text := extract_core_text text
  let tokens := tokenize core_text
  let scored := scoredTopicsOf tokens
  if scored = [] then ["General"]
  else
    ((List.insertionSort (fun a b : String × Nat => b.2 ≤ a.2) scored).take 3).map
      Prod.fst

/-- `bytes.fromhex`: ASCII whitespace is skipped between byte pairs; each
byte needs two adjacent hex digits; anything else fails. -/
def pyFromHex : List Char → Option (List Nat)
  | [] => some []
  | c :: rest =>
    if isPySpace c then pyFromHex rest
    else
      match hexDigitVal c with
      | none => none
      | some h1 =>
        match rest with
        | [] => none
        | c2 :: rest2 =>
          match hexDigitVal c2 with
          | none => none
          | some h2 => (pyFromHex rest2).map (fun bs => (16 * h1 + h2) :: bs)

/-- U+FFFD, the Unicode replacement character. -/
def replacementChar : Char := Char.ofNat 0xFFFD

/-- Whether the byte at index `i` exists and lies in `[lo, hi]` — the
continuation-byte test of the UTF-8 decoder. -/
def contAt (bs : List Nat) (i lo hi : Nat) : Bool :=
  match bs.get? i with
  | some c => lo ≤ c ∧ c ≤ hi
  | none => false

/-- Body of the UTF-8 decoder, structurally recursive on a fuel argument so
that the kernel can evaluate it; every step consumes at least one input byte,
so fuel equal to the input length suffices (see `utf8DecodeReplace`). -/
def utf8DecodeReplaceAux : Nat → List Nat → List Char
  | 0, _ => []
  | _, [] => []
  | fuel + 1, b :: rest =>
    if b < 0x80 then Char.ofNat b :: utf8DecodeReplaceAux fuel rest
    else if 0xC2 ≤ b ∧ b ≤ 0xDF then
      if contAt rest 0 0x80 0xBF then
        Char.ofNat ((b - 0xC0) * 64 + (rest.getD 0 0 - 0x80)) ::
          utf8DecodeReplaceAux fuel (rest.drop 1)
      else replacementChar :: utf8DecodeReplaceAux fuel rest
    else if 0xE0 ≤ b ∧ b ≤ 0xEF then
      if contAt rest 0 (if b = 0xE0 then 0xA0 else 0x80)
          (if b = 0xED then 0x9F else 0xBF) then
        if contAt rest 1 0x80 0xBF then
          Char.ofNat
              ((b - 0xE0) * 4096 + (rest.getD 0 0 - 0x80) * 64 + (rest.getD 1 0 - 0x80)) ::
            utf8DecodeReplaceAux fuel (rest.drop 2)
        else replacementChar :: utf8DecodeReplaceAux fuel (rest.drop 1)
      else replacementChar :: utf8DecodeReplaceAux fuel rest
    else if 0xF0 ≤ b ∧ b ≤ 0xF4 then
      if contAt rest 0 (if b = 0xF0 then 0x90 else 0x80)
          (if b = 0xF4 then 0x8F else 0xBF) then
        if contAt rest 1 0x80 0xBF then
          if contAt rest 2 0x80 0xBF then
            Char.ofNat
                ((b - 0xF0) * 262144 + (rest.getD 0 0 - 0x80) * 4096 +
                  (rest.getD 1 0 - 0x80) * 64 + (rest.getD 2 0 - 0x80)) ::
              utf8DecodeReplaceAux fuel (rest.drop 3)
          else replacementChar :: utf8DecodeReplaceAux fuel (rest.drop 2)
        else replacementChar :: utf8DecodeReplaceAux fuel (rest.drop 1)
      else replacementChar :: utf8DecodeReplaceAux fuel rest
    else replacementChar :: utf8DecodeReplaceAux fuel rest

/-- UTF-8 decoding with `errors="replace"`: well-formed sequences decode to
their scalar value, each maximal invalid subpart becomes one replacement
character (the decoder resumes at the first offending byte). -/
def utf8DecodeReplace (bs : List Nat) : List Char :=
  utf8DecodeReplaceAux bs.length bs

/-- `_decode_ancillary_data` from `question_analyzer.py`: empty input yields
`""`; an optional `0x` prefix is stripped; valid hex decodes as UTF-8 with
replacement; anything `bytes.fromhex` rejects is returned unchanged. -/
def decode_ancillary_data (hex_value : String) : String :=
  if hex_value = "" then ""
  else
    let value :=
      if strStartsWith hex_value "0x" then String.mk (hex_value.toList.drop 2)
      else hex_value
    match pyFromHex value.toList with
    | some bs => String.mk (utf8DecodeReplace bs)
    | none => hex_value

/-- The batch-parsing step shared by `get_recent_positions` and the other
collection operations: each event is parsed and the `None` results are
dropped. -/
def positionsOfEvents (now : Int) (events : List BqEvent) : List Position :=
  events.filterMap (parse_order_filled_event now)

/-- The spec's stablecoin-leg detection example event: maker leg is USDC,
taker leg is outcome token `12345`, 1 USDC against 2 tokens. -/
def evStablecoinLeg : BqEvent :=
  { arguments :=
      [("makerAssetId", .pStr "0"),
       ("takerAssetId", .pStr "12345"),
       ("makerAmountFilled", .pInt 1000000),
       ("takerAmountFilled", .pInt 2000000),
       ("maker", .pStr "0xMakerAddress"),
       ("taker", .pStr "0xTakerAddress")],
    txFrom := "0xFromAddress",
    txHash := "0xhash",
    blockTime := some 1700000000,
    blockNumber := 5 }

/-- The position the parser produces for `evStablecoinLeg`. -/
def posStablecoinLeg : Position :=
  { asset_id := "12345"
    trader_address := "0xtakeraddress"
    maker_address := "0xmakeraddress"
    taker_address := "0xtakeraddress"
    amount := 2
    price := mkRat 1 2
    direction := "YES"
    timestamp := 1700000000
    tx_hash := "0xhash"
    block_number := 5 }

/-- An event whose two legs are BOTH the stablecoin (`makerAssetId` and
`takerAssetId` both `"0"`), with resolvable amounts and addresses. -/
def evBothUsdc : BqEvent :=
  { arguments :=
      [("makerAssetId", .pStr "0"),
       ("takerAssetId", .pStr "0"),
       ("makerAmountFilled", .pInt 1000000),
       ("takerAmountFilled", .pInt 2000000),
       ("maker", .pStr "0xMakerAddress"),
       ("taker", .pStr "0xTakerAddress")],
    blockTime := some 1700000000 }

/-- An event where exactly one side (the maker) supplies the stablecoin, the
maker's address resolves, but the taker's address is the empty string (does
not resolve); the transaction has a `From` address. -/
def evMakerOnlyAddr : BqEvent :=
  { arguments :=
      [("makerAssetId", .pStr "0"),
       ("takerAssetId", .pStr "7"),
       ("makerAmountFilled", .pInt 1000000),
       ("takerAmountFilled", .pInt 2000000),
       ("maker", .pStr "0xSellerMaker"),
       ("taker", .pStr "")],
    txFrom := "0xFromAddr",
    blockTime := some 1700000000 }

/-- The spec's malformed event: no maker/taker asset id arguments and no
amount arguments. -/
def evMalformed : BqEvent :=
  { arguments := [("operator", .pStr "0xOperatorAddress")],
    blockTime := some 1700000000 }

/-- An event parsing to a position with a zero token amount (taker leg filled
with zero tokens against 1 USDC), so its trader group's total token amount
is zero. -/
def evZeroTokens : BqEvent :=
  { arguments :=
      [("makerAssetId", .pStr "0"),
       ("takerAssetId", .pStr "9"),
       ("makerAmountFilled", .pInt 1000000),
       ("takerAmountFilled", .pInt 0),
       ("maker", .pStr "0xOtherParty"),
       ("taker", .pStr "0xZeroTrader")],
    blockTime := some 1700000000 }

/-- Order-book example position at price 0.3 (buyer and seller known). -/
def posBid3 : Position :=
  { asset_id := "77", trader_address := "0xalice", maker_address := "0xalice",
    taker_address := "0xbob", amount := 1, price := mkRat 3 10,
    direction := "YES", timestamp := 10, tx_hash := "0xt3", block_number := 3 }

/-- Order-book example position at price 0.7. -/
def posBid7 : Position :=
  { asset_id := "77", trader_address := "0xalice", maker_address := "0xalice",
    taker_address := "0xbob", amount := 1, price := mkRat 7 10,
    direction := "YES", timestamp := 20, tx_hash := "0xt7", block_number := 4 }

/-- Order-book example position at price 0.5. -/
def posBid5 : Position :=
  { asset_id := "77", trader_address := "0xalice", maker_address := "0xalice",
    taker_address := "0xbob", amount := 1, price := mkRat 5 10,
    direction := "YES", timestamp := 30, tx_hash := "0xt5", block_number := 5 }

/-- First of two same-price positions with different timestamps. -/
def posMergeA : Position :=
  { asset_id := "77", trader_address := "0xbuyer", maker_address := "0xbuyer",
    taker_address := "0xseller", amount := 3, price := mkRat 2 5,
    direction := "YES", timestamp := 100, tx_hash := "0xma", block_number := 6 }

/-- Second of two same-price positions with a later timestamp. -/
def posMergeB : Position :=
  { asset_id := "77", trader_address := "0xbuyer", maker_address := "0xbuyer",
    taker_address := "0xseller", amount := 4, price := mkRat 2 5,
    direction := "YES", timestamp := 200, tx_hash := "0xmb", block_number := 7 }

/-- A position with an empty trader address and an empty maker address. -/
def posNoBuyer : Position :=
  { asset_id := "77", trader_address := "", maker_address := "",
    taker_address := "0xseller", amount := 1, price := 1,
    direction := "YES", timestamp := 0, tx_hash := "0xnb", block_number := 8 }

/-- The resolved address of the counterparty that did NOT supply the
stablecoin (the buyer of the spec's §4.2 step 6), meaningful when exactly one
leg is the stablecoin leg. -/
def nonStablecoinSideAddr (ev : BqEvent) : Option String :=
  if isUsdcAssetId (assetIdArg ev "makerAssetId") = true then addressArg ev "taker"
  else addressArg ev "maker"

/-- The resolved address of the counterparty that supplied the stablecoin,
meaningful when exactly one leg is the stablecoin leg. -/
def stablecoinSideAddr (ev : BqEvent) : Option String :=
  if isUsdcAssetId (assetIdArg ev "makerAssetId") = true then addressArg ev "maker"
  else addressArg ev "taker"

instance : IsTotal (ℚ × BookLevel) (fun a b => b.1 ≤ a.1) :=
  ⟨fun a b => le_total b.1 a.1⟩

instance : IsTrans (ℚ × BookLevel) (fun a b => b.1 ≤ a.1) :=
  ⟨fun _ _ _ hab hbc => le_trans hbc hab⟩

instance : IsTotal (ℚ × BookLevel) (fun a b => a.1 ≤ b.1) :=
  ⟨fun a b => le_total a.1 b.1⟩

instance : IsTrans (ℚ × BookLevel) (fun a b => a.1 ≤ b.1) :=
  ⟨fun _ _ _ hab hbc => le_trans hab hbc⟩

instance : IsTotal (String × Nat) (fun a b => b.2 ≤ a.2) :=
  ⟨fun a b => le_total b.2 a.2⟩

instance : IsTrans (String × Nat) (fun a b => b.2 ≤ a.2) :=
  ⟨fun _ _ _ hab hbc => le_trans hbc hab⟩

/-! ## Helper lemmas -/

theorem ratMul_eq (a b : ℚ) : ratMul a b = a * b := by
  rw [ratMul]
  conv_rhs => rw [← Rat.divInt_self a, ← Rat.divInt_self b, Rat.divInt_mul_divInt']

theorem ratAdd_eq (a b : ℚ) : ratAdd a b = a + b := by
  rw [ratAdd]
  have ha : (a.den : ℤ) ≠ 0 := Int.natCast_ne_zero.mpr a.den_nz
  have hb : (b.den : ℤ) ≠ 0 := Int.natCast_ne_zero.mpr b.den_nz
  conv_rhs => rw [← Rat.divInt_self a, ← Rat.divInt_self b]
  rw [Rat.divInt_add_divInt _ _ ha hb]

theorem ratDiv_eq (a b : ℚ) : ratDiv a b = a / b := by
  rw [ratDiv, Rat.div_def, Rat.inv_def]
  conv_rhs => rw [← Rat.divInt_self a]
  rw [Rat.divInt_mul_divInt']

theorem parse_some_eq {now : Int} {ev : BqEvent} {p : Position}
    (h : parse_order_filled_event now ev = some p) :
    outcomeAssetIdOf ev = some p.asset_id ∧ p.trader_address = traderAddressOf ev := by
  simp only [parse_order_filled_event] at h
  split at h
  · exact absurd h (by simp)
  · split at h
    · exact absurd h (by simp)
    · rename_i oid heq
      cases h
      exact ⟨heq, rfl⟩

theorem not_sentinel_of_not_usdc {s : String} (h : isUsdcAssetId (some s) = false) :
    s ≠ "0" ∧ s ≠ "0x0" := by
  constructor <;> rintro rfl <;> exact absurd h (by decide)

/-! ## Claim theorems -/

/-- C3: for the event with `makerAssetId = "0"`, `takerAssetId = "12345"`,
`makerAmountFilled = 1_000_000`, `takerAmountFilled = 2_000_000`,
`parse_order_filled_event` returns a Position with `asset_id = "12345"`,
`amount = 2.0`, `price = 0.5`, and `trader_address` equal to the taker's
(lowercased) address. -/
theorem C3_stablecoin_leg_example :
    parse_order_filled_event 0 evStablecoinLeg = some posStablecoinLeg ∧
    posStablecoinLeg.asset_id = "12345" ∧
    posStablecoinLeg.amount = 2 ∧
    posStablecoinLeg.price = mkRat 1 2 ∧
    addressArg evStablecoinLeg "taker" = some posStablecoinLeg.trader_address := by
  decide

/-- C1 counterexample: for an event in which BOTH legs are the stablecoin
(`makerAssetId = "0"` and `takerAssetId = "0"`), parsing succeeds and the
constructed Position's `asset_id` IS the stablecoin sentinel `"0"`, so the
claim that `asset_id` is never a sentinel even when both legs are stablecoin
is false on the code. -/
theorem C1_counterexample :
    (parse_order_filled_event 0 evBothUsdc).map Position.asset_id = some "0" := by
  decide

/-- C1 amended: for every successfully parsed event in which NOT both legs
are the stablecoin, the Position's `asset_id` is not a stablecoin sentinel
(`"0"` / `"0x0"`); when both legs are the stablecoin the parse still proceeds
(maker treated as the stablecoin side) and `asset_id` is the taker's
sentinel id. -/
theorem C1_amended (now : Int) (ev : BqEvent) (p : Position)
    (hp : parse_order_filled_event now ev = some p)
    (hnb : ¬(isUsdcAssetId (assetIdArg ev "makerAssetId") = true ∧
             isUsdcAssetId (assetIdArg ev "takerAssetId") = true)) :
    p.asset_id ≠ "0" ∧ p.asset_id ≠ "0x0" := by
  obtain ⟨ho, -⟩ := parse_some_eq hp
  rw [outcomeAssetIdOf] at ho
  cases hm : isUsdcAssetId (assetIdArg ev "makerAssetId") with
  | true =>
    have ht : isUsdcAssetId (assetIdArg ev "takerAssetId") = false := by
      cases ht : isUsdcAssetId (assetIdArg ev "takerAssetId") with
      | true => exact absurd ⟨hm, ht⟩ hnb
      | false => rfl
    simp only [hm, if_true] at ho
    exact not_sentinel_of_not_usdc (ho ▸ ht)
  | false =>
    cases ht : isUsdcAssetId (assetIdArg ev "takerAssetId") with
    | true =>
      simp only [hm, ht, Bool.false_eq_true, if_false, if_true] at ho
      exact not_sentinel_of_not_usdc (ho ▸ hm)
    | false =>
      simp only [hm, ht, Bool.false_eq_true, if_false] at ho
      rw [pyOrStr] at ho
      by_cases hmt : pyTruthy (assetIdArg ev "makerAssetId") = true
      · rw [if_pos hmt] at ho
        exact not_sentinel_of_not_usdc (ho ▸ hm)
      · rw [if_neg hmt] at ho
        exact not_sentinel_of_not_usdc (ho ▸ ht)

/-- Witness for C1's amended theorem at the concrete stablecoin-leg event. -/
theorem C1_witness :
    posStablecoinLeg.asset_id ≠ "0" ∧ posStablecoinLeg.asset_id ≠ "0x0" :=
  C1_amended 0 evStablecoinLeg posStablecoinLeg (by decide) (by decide)

/-- C2 counterexample: an event where exactly one side (the maker) supplies
the stablecoin, the non-supplying counterparty's address is empty
(unresolved) while the supplier's address resolves.  The parsed
`trader_address` is the SUPPLIER's lowercased address — not the address of
the counterparty that did not supply the stablecoin, and not the
transaction's `From` address — so the claim as stated is false here. -/
theorem C2_counterexample :
    isUsdcAssetId (assetIdArg evMakerOnlyAddr "makerAssetId") = true ∧
    isUsdcAssetId (assetIdArg evMakerOnlyAddr "takerAssetId") = false ∧
    nonStablecoinSideAddr evMakerOnlyAddr = some "" ∧
    (parse_order_filled_event 0 evMakerOnlyAddr).map Position.trader_address =
      some "0xsellermaker" ∧
    some "0xsellermaker" = stablecoinSideAddr evMakerOnlyAddr ∧
    "0xsellermaker" ≠ "" ∧
    "0xsellermaker" ≠ strLower evMakerOnlyAddr.txFrom := by
  decide

/-- `a or b` returns `a` when `a` is truthy. -/
theorem pyOrStr_of_truthy {a : Option String} (b : Option String)
    (h : pyTruthy a = true) : pyOrStr a b = a := by
  simp [pyOrStr, h]

/-- `a or b` returns `b` when `a` is falsy. -/
theorem pyOrStr_of_falsy {a : Option String} (b : Option String)
    (h : pyTruthy a = false) : pyOrStr a b = b := by
  simp [pyOrStr, h]

/-- C2 amended: when exactly one side supplies the stablecoin, the parsed
`trader_address` is the (lowercased) address of the counterparty that did NOT
supply the stablecoin whenever that address resolved; when it did not resolve
but the supplier's address did, the supplier's address is used; the
transaction's `From` address (lowercased) is used exactly when neither the
maker nor the taker address resolved. -/
theorem C2_amended (now : Int) (ev : BqEvent) (p : Position)
    (hp : parse_order_filled_event now ev = some p)
    (hone : isUsdcAssetId (assetIdArg ev "makerAssetId") ≠
            isUsdcAssetId (assetIdArg ev "takerAssetId")) :
    (pyTruthy (nonStablecoinSideAddr ev) = true →
      p.trader_address = (nonStablecoinSideAddr ev).getD "") ∧
    (pyTruthy (nonStablecoinSideAddr ev) = false →
      pyTruthy (stablecoinSideAddr ev) = true →
      p.trader_address = (stablecoinSideAddr ev).getD "") ∧
    (pyTruthy (nonStablecoinSideAddr ev) = false →
      pyTruthy (stablecoinSideAddr ev) = false →
      p.trader_address = if ev.txFrom ≠ "" then strLower ev.txFrom else "") := by
  obtain ⟨-, htr⟩ := parse_some_eq hp
  simp only [traderAddressOf] at htr
  cases hm : isUsdcAssetId (assetIdArg ev "makerAssetId") with
  | true =>
    have hus : usdcGivenOf ev = UsdcSide.maker := by simp [usdcGivenOf, hm]
    simp only [hus, reduceCtorEq, reduceIte] at htr
    have hbuyer : nonStablecoinSideAddr ev = addressArg ev "taker" := by
      simp [nonStablecoinSideAddr, hm]
    have hsupp : stablecoinSideAddr ev = addressArg ev "maker" := by
      simp [stablecoinSideAddr, hm]
    rw [hbuyer, hsupp]
    refine ⟨fun h1 => ?_, fun h1 h2 => ?_, fun h1 h2 => ?_⟩
    · rw [pyOrStr_of_truthy _ h1] at htr
      rw [htr, if_pos h1]
    · rw [pyOrStr_of_falsy _ h1] at htr
      rw [htr, if_pos h2]
    · rw [pyOrStr_of_falsy _ h1] at htr
      rw [htr, if_neg (by simp [h2])]
  | false =>
    have ht : isUsdcAssetId (assetIdArg ev "takerAssetId") = true := by
      cases ht : isUsdcAssetId (assetIdArg ev "takerAssetId") with
      | true => rfl
      | false => exact absurd (hm.trans ht.symm) hone
    have hus : usdcGivenOf ev = UsdcSide.taker := by simp [usdcGivenOf, hm, ht]
    simp only [hus, reduceCtorEq, reduceIte] at htr
    have hbuyer : nonStablecoinSideAddr ev = addressArg ev "maker" := by
      simp [nonStablecoinSideAddr, hm]
    have hsupp : stablecoinSideAddr ev = addressArg ev "taker" := by
      simp [stablecoinSideAddr, hm]
    rw [hbuyer, hsupp]
    refine ⟨fun h1 => ?_, fun h1 h2 => ?_, fun h1 h2 => ?_⟩
    · rw [pyOrStr_of_truthy _ h1] at htr
      rw [htr, if_pos h1]
    · rw [pyOrStr_of_falsy _ h1] at htr
      rw [htr, if_pos h2]
    · rw [pyOrStr_of_falsy _ h1] at htr
      rw [htr, if_neg (by simp [h2])]

/-- Witness for C2's amended theorem at the concrete stablecoin-leg event
(the buyer side resolves, so the trader is the non-supplier's address). -/
theorem C2_witness :
    posStablecoinLeg.trader_address = (nonStablecoinSideAddr evStablecoinLeg).getD "" :=
  (C2_amended 0 evStablecoinLeg posStablecoinLeg (by decide) (by decide)).1 (by decide)

theorem avg_price_upsertTrader {stats : List TraderStat} (t : String) (pos : Position)
    (h : ∀ s ∈ stats, s.avg_price = 0) :
    ∀ s ∈ upsertTrader t pos stats, s.avg_price = 0 := by
  induction stats with
  | nil =>
    intro s hs
    simp only [upsertTrader, List.mem_singleton] at hs
    subst hs
    rfl
  | cons a rest ih =>
    intro s hs
    simp only [upsertTrader] at hs
    by_cases hat : a.address = t
    · rw [if_pos hat] at hs
      rcases List.mem_cons.mp hs with rfl | hmem
      · show a.avg_price = 0
        exact h a (List.mem_cons_self a rest)
      · exact h s (List.mem_cons_of_mem a hmem)
    · rw [if_neg hat] at hs
      rcases List.mem_cons.mp hs with rfl | hmem
      · exact h s (List.mem_cons_self s rest)
      · exact ih (fun x hx => h x (List.mem_cons_of_mem a hx)) s hmem

theorem avg_price_foldl_trader (ps : List Position) :
    ∀ (init : List TraderStat), (∀ s ∈ init, s.avg_price = 0) →
      ∀ s ∈ ps.foldl addTraderStat init, s.avg_price = 0 := by
  induction ps with
  | nil => exact fun init h s hs => h s hs
  | cons p rest ih =>
    intro init h s hs
    rw [List.foldl_cons] at hs
    refine ih _ ?_ s hs
    intro x hx
    simp only [addTraderStat] at hx
    by_cases hemp : strLower p.trader_address = ""
    · rw [if_pos hemp] at hx
      exact h x hx
    · rw [if_neg hemp] at hx
      exact avg_price_upsertTrader _ _ h x hx

theorem finalizeTraderStat_amount (s : TraderStat) :
    (finalizeTraderStat s).total_amount = s.total_amount := by
  by_cases h : 0 < s.total_trades <;> simp [finalizeTraderStat, h]

theorem finalizeTraderStat_avg_zero {s : TraderStat} (havg : s.avg_price = 0)
    (h0 : s.total_amount = 0) : (finalizeTraderStat s).avg_price = 0 := by
  by_cases h : 0 < s.total_trades
  · simp [finalizeTraderStat, h, h0]
  · simp [finalizeTraderStat, h, havg]

theorem avg_price_upsertAsset {stats : List AssetStat} (a : String) (pos : Position)
    (h : ∀ s ∈ stats, s.avg_price = 0) :
    ∀ s ∈ upsertAsset a pos stats, s.avg_price = 0 := by
  induction stats with
  | nil =>
    intro s hs
    simp only [upsertAsset, List.mem_singleton] at hs
    subst hs
    rfl
  | cons x rest ih =>
    intro s hs
    simp only [upsertAsset] at hs
    by_cases hat : x.asset_id = a
    · rw [if_pos hat] at hs
      rcases List.mem_cons.mp hs with rfl | hmem
      · show x.avg_price = 0
        exact h x (List.mem_cons_self x rest)
      · exact h s (List.mem_cons_of_mem x hmem)
    · rw [if_neg hat] at hs
      rcases List.mem_cons.mp hs with rfl | hmem
      · exact h s (List.mem_cons_self s rest)
      · exact ih (fun y hy => h y (List.mem_cons_of_mem x hy)) s hmem

theorem avg_price_foldl_asset (ps : List Position) :
    ∀ (init : List AssetStat), (∀ s ∈ init, s.avg_price = 0) →
      ∀ s ∈ ps.foldl addAssetStat init, s.avg_price = 0 := by
  induction ps with
  | nil => exact fun init h s hs => h s hs
  | cons p rest ih =>
    intro init h s hs
    rw [List.foldl_cons] at hs
    refine ih _ ?_ s hs
    intro x hx
    simp only [addAssetStat] at hx
    by_cases hemp : strStrip p.asset_id = ""
    · rw [if_pos hemp] at hx
      exact h x hx
    · rw [if_neg hemp] at hx
      exact avg_price_upsertAsset _ _ h x hx

theorem finalizeAssetStat_amount (s : AssetStat) :
    (finalizeAssetStat s).total_amount = s.total_amount := by
  by_cases h : 0 < s.total_trades <;> simp [finalizeAssetStat, h]

theorem finalizeAssetStat_avg_zero {s : AssetStat} (havg : s.avg_price = 0)
    (h0 : s.total_amount = 0) : (finalizeAssetStat s).avg_price = 0 := by
  by_cases h : 0 < s.total_trades
  · simp [finalizeAssetStat, h, h0]
  · simp [finalizeAssetStat, h, havg]

/-- C4: division by zero in price and average-price computations yields 0:
`process_trade_amounts` returns price 0 whenever the normalized token amount
is 0; in `get_top_traders_and_assets` every trader and asset group whose
total token amount is 0 has `avg_price = 0`; `process_trade_amounts (0, 0)`
returns `(0, 0, 0)`; and `process_trade_amounts (n, n)` has price 1 for every
integer `n > 0`. -/
theorem C4_division_guards :
    (∀ u t : Option ℚ, (process_trade_amounts u t).2.1 = 0 →
      (process_trade_amounts u t).2.2 = 0) ∧
    (∀ (now : Int) (events : List BqEvent) (tc ac : Nat),
      ∀ s ∈ (get_top_traders_and_assets now events tc ac).traders,
        s.total_amount = 0 → s.avg_price = 0) ∧
    (∀ (now : Int) (events : List BqEvent) (tc ac : Nat),
      ∀ s ∈ (get_top_traders_and_assets now events tc ac).assets,
        s.total_amount = 0 → s.avg_price = 0) ∧
    process_trade_amounts (some 0) (some 0) = (0, 0, 0) ∧
    (∀ n : ℤ, 0 < n →
      (process_trade_amounts (some (n : ℚ)) (some (n : ℚ))).2.2 = 1) := by
  refine ⟨?_, ?_, ?_, by decide, ?_⟩
  · intro u t h
    simp only [process_trade_amounts] at h ⊢
    rw [if_neg]
    simp [h]
  · intro now events tc ac s hs h0
    simp only [get_top_traders_and_assets] at hs
    have hs1 : s ∈ traderStats (events.filterMap (parse_order_filled_event now)) := by
      have h2 := List.take_subset tc _ hs
      rwa [List.mem_insertionSort] at h2
    obtain ⟨s0, hs0, rfl⟩ := List.mem_map.mp hs1
    rw [finalizeTraderStat_amount] at h0
    exact finalizeTraderStat_avg_zero (avg_price_foldl_trader _ [] (by simp) s0 hs0) h0
  · intro now events tc ac s hs h0
    simp only [get_top_traders_and_assets] at hs
    have hs1 : s ∈ assetStats (events.filterMap (parse_order_filled_event now)) := by
      have h2 := List.take_subset ac _ hs
      rwa [List.mem_insertionSort] at h2
    obtain ⟨s0, hs0, rfl⟩ := List.mem_map.mp hs1
    rw [finalizeAssetStat_amount] at h0
    exact finalizeAssetStat_avg_zero (avg_price_foldl_asset _ [] (by simp) s0 hs0) h0
  · intro n hn
    have hq : (n : ℚ) ≠ 0 := Int.cast_ne_zero.mpr hn.ne'
    have hd : ratDiv (n : ℚ) 1000000 ≠ 0 := by
      rw [ratDiv_eq]
      exact div_ne_zero hq (by norm_num)
    simp only [process_trade_amounts, Option.getD_some]
    rw [if_pos hq, if_pos hd]
    show ratDiv (ratDiv ((n : ℚ)) 1000000) (ratDiv ((n : ℚ)) 1000000) = 1
    rw [ratDiv_eq]
    exact div_self hd

/-- Witness for C4 at concrete inputs: price 1 for `n = 3`, price 0 for a
zero token amount, and a concrete zero-amount trader group with
`avg_price = 0`. -/
theorem C4_witness :
    (process_trade_amounts (some 3) (some 3)).2.2 = 1 ∧
    (process_trade_amounts (some 5) (some 0)).2.2 = 0 :=
  ⟨C4_division_guards.2.2.2.2 3 (by decide),
   C4_division_guards.1 (some 5) (some 0) (by decide)⟩

theorem length_filterMap_of_isSome {α β : Type} (f : α → Option β) :
    ∀ l : List α, (∀ a ∈ l, (f a).isSome) → (l.filterMap f).length = l.length := by
  intro l
  induction l with
  | nil => simp
  | cons a rest ih =>
    intro h
    rw [List.filterMap_cons]
    cases hf : f a with
    | none => exact absurd (h a (List.mem_cons_self a rest)) (by simp [hf])
    | some b =>
      simp only [List.length_cons]
      rw [ih (fun x hx => h x (List.mem_cons_of_mem a hx))]

/-- C5: the parser is total (modelled as a total function — the source's
`except` clause turns any exception into `None`); the malformed event with no
asset id arguments and no amount arguments parses to `none` for every clock
value, and a batch of one malformed event inserted anywhere among well-formed
events yields exactly as many positions as there are well-formed events. -/
theorem C5_parse_failure_nonfatal :
    (∀ now : Int, parse_order_filled_event now evMalformed = none) ∧
    (∀ (now : Int) (l1 l2 : List BqEvent),
      (∀ e ∈ l1 ++ l2, (parse_order_filled_event now e).isSome) →
      (positionsOfEvents now (l1 ++ evMalformed :: l2)).length = (l1 ++ l2).length) := by
  constructor
  · intro now
    rfl
  · intro now l1 l2 h
    unfold positionsOfEvents
    rw [List.filterMap_append, List.filterMap_cons]
    have hm : parse_order_filled_event now evMalformed = none := rfl
    rw [hm, List.length_append, List.length_append]
    rw [length_filterMap_of_isSome _ l1 (fun e he => h e (List.mem_append_left _ he))]
    rw [length_filterMap_of_isSome _ l2 (fun e he => h e (List.mem_append_right _ he))]

/-- Witness for C5: a batch of two well-formed events with the malformed one
in the middle yields exactly two positions. -/
theorem C5_witness :
    (positionsOfEvents 0 ([evStablecoinLeg] ++ evMalformed :: [evZeroTokens])).length =
      ([evStablecoinLeg] ++ [evZeroTokens]).length :=
  C5_parse_failure_nonfatal.2 0 [evStablecoinLeg] [evZeroTokens] (by decide)

/-- C10: in `get_orderbook`'s level-building step, a position whose
`trader_address` is empty contributes to no bid level, and a position whose
maker or taker address is empty contributes to no ask level (a seller is only
determined when both are non-empty). -/
theorem C10_empty_address_levels :
    ∀ (st : List (ℚ × BookLevel) × List (ℚ × BookLevel)) (pos : Position),
      (pos.trader_address = "" → (stepBook st pos).1 = st.1) ∧
      ((pos.maker_address = "" ∨ pos.taker_address = "") → (stepBook st pos).2 = st.2) := by
  intro st pos
  constructor
  · intro h
    simp [stepBook, h]
  · intro h
    have hseller : sellerOf pos = none := by
      rcases h with h | h <;> simp [sellerOf, h]
    simp [stepBook, hseller, pyTruthy]

/-- Witness for C10 at a concrete position with empty buyer and maker. -/
theorem C10_witness :
    (stepBook (([], []) : List (ℚ × BookLevel) × List (ℚ × BookLevel)) posNoBuyer).1 = [] ∧
    (stepBook (([], []) : List (ℚ × BookLevel) × List (ℚ × BookLevel)) posNoBuyer).2 = [] :=
  ⟨(C10_empty_address_levels ([], []) posNoBuyer).1 rfl,
   (C10_empty_address_levels ([], []) posNoBuyer).2 (Or.inl rfl)⟩

/-- C9: the ancillary decoder (a total function — never raises):
`"0x7469746c653a2048656c6c6f"` decodes exactly to `"title: Hello"` (so the
result contains it), every string whose (prefix-stripped) payload
`bytes.fromhex` rejects — e.g. an odd number of hex digits or non-hex
characters — is returned unchanged, with two such concrete inputs checked. -/
theorem C9_ancillary_decode :
    decode_ancillary_data "0x7469746c653a2048656c6c6f" = "title: Hello" ∧
    (∀ s : String,
      pyFromHex (if strStartsWith s "0x" then String.mk (s.toList.drop 2) else s).toList =
          none →
      decode_ancillary_data s = s) ∧
    decode_ancillary_data "0x123" = "0x123" ∧
    decode_ancillary_data "zzz" = "zzz" := by
  refine ⟨by decide, ?_, by decide, by decide⟩
  intro s h
  have hs : s ≠ "" := by
    rintro rfl
    exact absurd h (by decide)
  rw [decode_ancillary_data, if_neg hs]
  simp only [h]

/-- Witness for C9's unchanged-on-invalid clause at a concrete non-hex
input. -/
theorem C9_witness : decode_ancillary_data "qq" = "qq" :=
  C9_ancillary_decode.2.1 "qq" (by decide)

theorem lookup_topicKeywordTable {tk : String × List String}
    (h : tk ∈ topicKeywordTable) : topicKeywordTable.lookup tk.1 = some tk.2 := by
  fin_cases h <;> decide

theorem scoredTopicsOf_mem {tokens : List String} {pr : String × Nat}
    (h : pr ∈ scoredTopicsOf tokens) :
    topicScoreByName tokens pr.1 = pr.2 ∧ 0 < pr.2 := by
  obtain ⟨tk, htk, heq⟩ := List.mem_filterMap.mp h
  simp only at heq
  split at heq
  · rename_i hsc
    cases heq
    constructor
    · show topicScoreByName tokens tk.1 = topicScore tokens tk.2
      rw [topicScoreByName, lookup_topicKeywordTable htk]
    · exact Nat.pos_of_ne_zero hsc
  · exact absurd heq (by simp)

/-- C8: topic detection returns the topics with a nonzero keyword-presence
count ranked descending by count, truncated to at most 3, with the sentinel
`["General"]` when nothing scores: text containing `bitcoin` and `ethereum`
and no other topic's keyword yields exactly `["Crypto"]`; keyword-free text
yields `["General"]`; in general the result has length at most 3, every
returned topic scores (unless it is the `General` sentinel), scores are
non-increasing along the result, and every scoring topic appears unless the
result was truncated at 3. -/
theorem C8_topic_detection :
    detect_topics "bitcoin ethereum" = ["Crypto"] ∧
    detect_topics "zebra zebra zebra" = ["General"] ∧
    (∀ text : String, (detect_topics text).length ≤ 3) ∧
    (∀ text : String,
      detect_topics text = ["General"] ∨
      ∀ t ∈ detect_topics text,
        0 < topicScoreByName (tokenize (extract_core_text text)) t) ∧
    (∀ text : String,
      (detect_topics text).Pairwise (fun a b =>
        topicScoreByName (tokenize (extract_core_text text)) b ≤
          topicScoreByName (tokenize (extract_core_text text)) a)) ∧
    (∀ (text : String) (tk : String × List String),
      tk ∈ topicKeywordTable →
      0 < topicScore (tokenize (extract_core_text text)) tk.2 →
      tk.1 ∈ detect_topics text ∨ (detect_topics text).length = 3) := by
  refine ⟨by decide, by decide, ?_, ?_, ?_, ?_⟩
  · intro text
    rw [detect_topics]
    by_cases hsc : scoredTopicsOf (tokenize (extract_core_text text)) = []
    · simp [hsc]
    · rw [if_neg hsc]
      simp only [List.length_map, List.length_take]
      exact min_le_left _ _
  · intro text
    by_cases hsc : scoredTopicsOf (tokenize (extract_core_text text)) = []
    · left
      rw [detect_topics, if_pos hsc]
    · right
      intro t ht
      rw [detect_topics, if_neg hsc] at ht
      obtain ⟨pr, hpr, rfl⟩ := List.mem_map.mp ht
      have hpr2 : pr ∈ scoredTopicsOf (tokenize (extract_core_text text)) := by
        have := List.take_subset 3 _ hpr
        rwa [List.mem_insertionSort] at this
      obtain ⟨hname, hpos⟩ := scoredTopicsOf_mem hpr2
      rw [hname]
      exact hpos
  · intro text
    rw [detect_topics]
    by_cases hsc : scoredTopicsOf (tokenize (extract_core_text text)) = []
    · simp [hsc]
    · rw [if_neg hsc]
      rw [List.pairwise_map]
      have hsorted :
          (List.insertionSort (fun a b : String × Nat => b.2 ≤ a.2)
              (scoredTopicsOf (tokenize (extract_core_text text)))).Pairwise
            (fun a b => b.2 ≤ a.2) :=
        List.sorted_insertionSort _ _
      have htake := List.Pairwise.sublist (List.take_sublist 3 _) hsorted
      refine htake.imp_of_mem ?_
      intro a b ha hb hr
      have ha2 : a ∈ scoredTopicsOf (tokenize (extract_core_text text)) := by
        have := List.take_subset 3 _ ha
        rwa [List.mem_insertionSort] at this
      have hb2 : b ∈ scoredTopicsOf (tokenize (extract_core_text text)) := by
        have := List.take_subset 3 _ hb
        rwa [List.mem_insertionSort] at this
      rw [(scoredTopicsOf_mem ha2).1, (scoredTopicsOf_mem hb2).1]
      exact hr
  · intro text tk htab hpos
    have hmem : (tk.1, topicScore (tokenize (extract_core_text text)) tk.2) ∈
        scoredTopicsOf (tokenize (extract_core_text text)) := by
      refine List.mem_filterMap.mpr ⟨tk, htab, ?_⟩
      simp only [if_pos hpos.ne']
    have hne : scoredTopicsOf (tokenize (extract_core_text text)) ≠ [] :=
      List.ne_nil_of_mem hmem
    rw [detect_topics, if_neg hne]
    by_cases hlen :
        (scoredTopicsOf (tokenize (extract_core_text text))).length ≤ 3
    · left
      rw [List.take_of_length_le (by rwa [List.length_insertionSort])]
      exact List.mem_map.mpr ⟨_, (List.mem_insertionSort _).mpr hmem, rfl⟩
    · right
      simp only [List.length_map, List.length_take, List.length_insertionSort]
      omega

/-- Witness for C8's completeness clause at the Crypto example text. -/
theorem C8_witness :
    "Crypto" ∈ detect_topics "bitcoin ethereum" ∨
      (detect_topics "bitcoin ethereum").length = 3 :=
  C8_topic_detection.2.2.2.2.2 "bitcoin ethereum"
    ("Crypto", (topicKeywordTable.lookup "Crypto").getD []) (by decide) (by decide)

theorem mem_keys_addToLevels {q : ℚ} (ls : List (ℚ × BookLevel)) (p a : ℚ) (t : Int) :
    q ∈ (addToLevels ls p a t).map Prod.fst ↔ q ∈ ls.map Prod.fst ∨ q = p := by
  induction ls with
  | nil => simp [addToLevels]
  | cons x rest ih =>
    rw [addToLevels]
    by_cases hx : x.1 = p
    · rw [if_pos hx]
      simp only [List.map_cons, List.mem_cons]
      constructor
      · rintro (rfl | h)
        · exact Or.inl (Or.inl rfl)
        · exact Or.inl (Or.inr h)
      · rintro ((rfl | h) | rfl)
        · exact Or.inl rfl
        · exact Or.inr h
        · exact Or.inl hx.symm
    · rw [if_neg hx]
      simp only [List.map_cons, List.mem_cons, ih]
      tauto
  
theorem nodup_keys_addToLevels {ls : List (ℚ × BookLevel)} (p a : ℚ) (t : Int)
    (h : (ls.map Prod.fst).Nodup) : ((addToLevels ls p a t).map Prod.fst).Nodup := by
  induction ls with
  | nil => simp [addToLevels]
  | cons x rest ih =>
    rw [addToLevels]
    rw [List.map_cons, List.nodup_cons] at h
    by_cases hx : x.1 = p
    · rw [if_pos hx]
      rw [List.map_cons, List.nodup_cons]
      exact h
    · rw [if_neg hx]
      rw [List.map_cons, List.nodup_cons]
      constructor
      · rw [mem_keys_addToLevels]
        rintro (hmem | rfl)
        · exact h.1 hmem
        · exact hx rfl
      · exact ih h.2

theorem nodup_keys_stepBook {st : List (ℚ × BookLevel) × List (ℚ × BookLevel)}
    (pos : Position) (h1 : (st.1.map Prod.fst).Nodup) (h2 : (st.2.map Prod.fst).Nodup) :
    (((stepBook st pos).1.map Prod.fst).Nodup ∧ ((stepBook st pos).2.map Prod.fst).Nodup) := by
  rw [stepBook]
  constructor
  · by_cases hb : pos.trader_address ≠ ""
    · simpa [hb] using nodup_keys_addToLevels pos.price pos.amount pos.timestamp h1
    · simpa [hb] using h1
  · by_cases hs : pyTruthy (sellerOf pos) = true
    · simpa [hs] using nodup_keys_addToLevels pos.price pos.amount pos.timestamp h2
    · simpa [hs] using h2

theorem nodup_keys_foldl_stepBook (ps : List Position) :
    ∀ (st : List (ℚ × BookLevel) × List (ℚ × BookLevel)),
      (st.1.map Prod.fst).Nodup → (st.2.map Prod.fst).Nodup →
      (((ps.foldl stepBook st).1.map Prod.fst).Nodup ∧
        ((ps.foldl stepBook st).2.map Prod.fst).Nodup) := by
  induction ps with
  | nil => exact fun st h1 h2 => ⟨h1, h2⟩
  | cons p rest ih =>
    intro st h1 h2
    rw [List.foldl_cons]
    obtain ⟨g1, g2⟩ := nodup_keys_stepBook p h1 h2
    exact ih _ g1 g2

theorem nodup_keys_buildBookLevels (ps : List Position) :
    (((buildBookLevels ps).1.map Prod.fst).Nodup ∧
      ((buildBookLevels ps).2.map Prod.fst).Nodup) :=
  nodup_keys_foldl_stepBook _ _ (by simp) (by simp)

theorem pairwise_gt_sortLevelsDesc {ls : List (ℚ × BookLevel)}
    (h : (ls.map Prod.fst).Nodup) :
    ((sortLevelsDesc ls).map Prod.fst).Pairwise (fun a b => b < a) := by
  have hsorted : (sortLevelsDesc ls).Pairwise (fun a b : ℚ × BookLevel => b.1 ≤ a.1) :=
    List.sorted_insertionSort _ _
  have hle : ((sortLevelsDesc ls).map Prod.fst).Pairwise (fun a b => b ≤ a) :=
    List.pairwise_map.mpr hsorted
  have hnd : ((sortLevelsDesc ls).map Prod.fst).Nodup := by
    refine (List.Perm.nodup_iff ?_).mpr h
    exact (List.perm_insertionSort _ ls).map Prod.fst
  exact (hle.and hnd).imp fun hab => lt_of_le_of_ne hab.1 (Ne.symm hab.2)

theorem pairwise_lt_sortLevelsAsc {ls : List (ℚ × BookLevel)}
    (h : (ls.map Prod.fst).Nodup) :
    ((sortLevelsAsc ls).map Prod.fst).Pairwise (fun a b => a < b) := by
  have hsorted : (sortLevelsAsc ls).Pairwise (fun a b : ℚ × BookLevel => a.1 ≤ b.1) :=
    List.sorted_insertionSort _ _
  have hle : ((sortLevelsAsc ls).map Prod.fst).Pairwise (fun a b => a ≤ b) :=
    List.pairwise_map.mpr hsorted
  have hnd : ((sortLevelsAsc ls).map Prod.fst).Nodup := by
    refine (List.Perm.nodup_iff ?_).mpr h
    exact (List.perm_insertionSort _ ls).map Prod.fst
  exact (hle.and hnd).imp fun hab => lt_of_le_of_ne hab.1 hab.2

/-- C7: for every batch of positions, the reconstructed book's bid list is
sorted by price in strictly descending order and the ask list in strictly
ascending order (likewise for `get_orderbook` on raw events); bid prices
{0.3, 0.7, 0.5} come out as [0.7, 0.5, 0.3] and ask prices as
[0.3, 0.5, 0.7]. -/
theorem C7_book_sort_order :
    (∀ ps : List Position,
      ((get_orderbook_core ps).bids.map Prod.fst).Pairwise (fun a b => b < a) ∧
      ((get_orderbook_core ps).asks.map Prod.fst).Pairwise (fun a b => a < b)) ∧
    (∀ (now : Int) (asset_id : String) (events : List BqEvent),
      ((get_orderbook now asset_id events).bids.map Prod.fst).Pairwise (fun a b => b < a) ∧
      ((get_orderbook now asset_id events).asks.map Prod.fst).Pairwise (fun a b => a < b)) ∧
    (get_orderbook_core [posBid3, posBid7, posBid5]).bids.map Prod.fst =
      [mkRat 7 10, mkRat 5 10, mkRat 3 10] ∧
    (get_orderbook_core [posBid3, posBid7, posBid5]).asks.map Prod.fst =
      [mkRat 3 10, mkRat 5 10, mkRat 7 10] := by
  have hcore : ∀ ps : List Position,
      ((get_orderbook_core ps).bids.map Prod.fst).Pairwise (fun a b => b < a) ∧
      ((get_orderbook_core ps).asks.map Prod.fst).Pairwise (fun a b => a < b) := by
    intro ps
    obtain ⟨h1, h2⟩ := nodup_keys_buildBookLevels ps
    exact ⟨pairwise_gt_sortLevelsDesc h1, pairwise_lt_sortLevelsAsc h2⟩
  exact ⟨hcore, fun now asset_id events => hcore _, by decide, by decide⟩

theorem sellerOf_truthy {pos : Position} (hm : pos.maker_address ≠ "")
    (ht : pos.taker_address ≠ "") : pyTruthy (sellerOf pos) = true := by
  rw [sellerOf, if_pos ⟨hm, ht⟩]
  by_cases hb : pos.trader_address ≠ ""
  · rw [if_pos hb]
    dsimp only
    split_ifs <;> simp [pyTruthy, hm, ht]
  · rw [if_neg hb]
    simp [pyTruthy, hm]

theorem foldl_stepBook_pair_bids (a b : Position) (ha : a.trader_address ≠ "")
    (hb : b.trader_address ≠ "") (hp : a.price = b.price) :
    (List.foldl stepBook (([], []) : List (ℚ × BookLevel) × List (ℚ × BookLevel))
        [a, b]).1 =
      [(a.price,
        { amount := ratAdd a.amount b.amount, count := 2,
          last_trade_time :=
            if a.timestamp < b.timestamp then b.timestamp else a.timestamp })] := by
  simp only [List.foldl_cons, List.foldl_nil, stepBook, if_pos ha]
  simp [hb, addToLevels, hp]

theorem foldl_stepBook_pair_asks (a b : Position)
    (hma : a.maker_address ≠ "") (hta : a.taker_address ≠ "")
    (hmb : b.maker_address ≠ "") (htb : b.taker_address ≠ "")
    (hp : a.price = b.price) :
    (List.foldl stepBook (([], []) : List (ℚ × BookLevel) × List (ℚ × BookLevel))
        [a, b]).2 =
      [(a.price,
        { amount := ratAdd a.amount b.amount, count := 2,
          last_trade_time :=
            if a.timestamp < b.timestamp then b.timestamp else a.timestamp })] := by
  simp only [List.foldl_cons, List.foldl_nil, stepBook,
    sellerOf_truthy hma hta, sellerOf_truthy hmb htb]
  simp [addToLevels, hp]

/-- C6: two positions at the same price with different timestamps merge into
one book level with `count = 2`, `amount` equal to the sum of the two trade
amounts, and last-trade time the later of the two timestamps — on the bid
side (both buyers known), and likewise on the ask side when both positions'
maker and taker addresses are known. -/
theorem C6_level_merge (p1 p2 : Position)
    (hprice : p1.price = p2.price) (htime : p1.timestamp ≠ p2.timestamp)
    (hb1 : p1.trader_address ≠ "") (hb2 : p2.trader_address ≠ "") :
    (get_orderbook_core [p1, p2]).bids =
      [(p1.price,
        { amount := p1.amount + p2.amount, count := 2,
          last_trade_time := max p1.timestamp p2.timestamp })] ∧
    (p1.maker_address ≠ "" → p1.taker_address ≠ "" →
      p2.maker_address ≠ "" → p2.taker_address ≠ "" →
      (get_orderbook_core [p1, p2]).asks =
        [(p1.price,
          { amount := p1.amount + p2.amount, count := 2,
            last_trade_time := max p1.timestamp p2.timestamp })]) := by
  rcases le_or_lt p1.timestamp p2.timestamp with h12 | h21
  · have hlt : p1.timestamp < p2.timestamp := lt_of_le_of_ne h12 htime
    have hs : sortPositionsByTime [p1, p2] = [p1, p2] := by
      simp [sortPositionsByTime, h12]
    constructor
    · show sortLevelsDesc (buildBookLevels [p1, p2]).1 = _
      rw [buildBookLevels, hs, foldl_stepBook_pair_bids p1 p2 hb1 hb2 hprice]
      rw [if_pos hlt, ratAdd_eq, max_eq_right h12]
      simp [sortLevelsDesc]
    · intro hm1 ht1 hm2 ht2
      show sortLevelsAsc (buildBookLevels [p1, p2]).2 = _
      rw [buildBookLevels, hs, foldl_stepBook_pair_asks p1 p2 hm1 ht1 hm2 ht2 hprice]
      rw [if_pos hlt, ratAdd_eq, max_eq_right h12]
      simp [sortLevelsAsc]
  · have hs : sortPositionsByTime [p1, p2] = [p2, p1] := by
      simp [sortPositionsByTime, h21.not_le]
    constructor
    · show sortLevelsDesc (buildBookLevels [p1, p2]).1 = _
      rw [buildBookLevels, hs, foldl_stepBook_pair_bids p2 p1 hb2 hb1 hprice.symm]
      rw [if_pos h21, ratAdd_eq, add_comm p2.amount p1.amount, ← hprice,
        ← max_eq_left h21.le]
      simp [sortLevelsDesc]
    · intro hm1 ht1 hm2 ht2
      show sortLevelsAsc (buildBookLevels [p1, p2]).2 = _
      rw [buildBookLevels, hs, foldl_stepBook_pair_asks p2 p1 hm2 ht2 hm1 ht1 hprice.symm]
      rw [if_pos h21, ratAdd_eq, add_comm p2.amount p1.amount, ← hprice,
        ← max_eq_left h21.le]
      simp [sortLevelsAsc]

/-- Witness for C6 at two concrete same-price positions (amounts 3 and 4 at
price 0.4, timestamps 100 and 200). -/
theorem C6_witness :
    (get_orderbook_core [posMergeA, posMergeB]).bids =
      [(posMergeA.price,
        { amount := posMergeA.amount + posMergeB.amount, count := 2,
          last_trade_time := max posMergeA.timestamp posMergeB.timestamp })] ∧
    (get_orderbook_core [posMergeA, posMergeB]).asks =
      [(posMergeA.price,
        { amount := posMergeA.amount + posMergeB.amount, count := 2,
          last_trade_time := max posMergeA.timestamp posMergeB.timestamp })] :=
  ⟨(C6_level_merge posMergeA posMergeB (by decide) (by decide) (by decide) (by decide)).1,
   (C6_level_merge posMergeA posMergeB (by decide) (by decide) (by decide)
      (by decide)).2 (by decide) (by decide) (by decide) (by decide)⟩
